import Mathlib

/-
Verification of json_list_of_objects_key_extractor.py: a shallow embedding
of the program pipeline (argument-derived key list, loader, projector,
emitters) together with proofs of the specified properties.
-/

namespace KeyExtractor

/-- JSON values as handled by the program. Numbers are modelled as integers,
which covers every value the specification exercises; the program only ever
copies values verbatim, never computes with them. An object is its ordered
field list, insertion order preserved, as in a CPython dict. -/
inductive Json where
  | null : Json
  | bool (b : Bool) : Json
  | num (n : Int) : Json
  | str (s : String) : Json
  | arr (items : List Json) : Json
  | obj (fields : List (String × Json)) : Json

/-- A fatal diagnostic: the printed message and the process exit code. -/
structure Error where
  msg : String
  code : Nat
deriving DecidableEq

/-- Line 179: printed when the key count disagrees with -n. -/
def argError : Error := ⟨"Number of keys provided does not match the -n argument!", 1⟩

/-- Lines 71, 78, 104, 187: the one message shared by every file-shaped failure. -/
def fileError : Error := ⟨"JSON FILE NOT FOUND!", 1⟩

/-- Line 109: printed when a requested key is absent from some object. -/
def keyError : Error := ⟨"Requested KEY(s) not present in input file!", 1⟩

/-- The characters Python str.strip removes (ASCII whitespace). -/
def isPySpace (c : Char) : Bool :=
  c = ' ' || c = '\t' || c = '\n' || c = '\r' || c = '\x0b' || c = '\x0c'

/-- Python str.strip: drop leading and trailing whitespace. -/
def pyStrip (s : String) : String :=
  String.mk (((s.data.dropWhile isPySpace).reverse.dropWhile isPySpace).reverse)

/-- Helper for splitComma: accumulate the current token until a comma. -/
def splitCommaAux : List Char → List Char → List (List Char)
  | [], cur => [cur.reverse]
  | c :: rest, cur =>
    if c = ',' then cur.reverse :: splitCommaAux rest []
    else splitCommaAux rest (c :: cur)

/-- Python s.split with separator a comma: the empty string yields one empty
token, and adjacent commas yield empty tokens. -/
def splitComma (s : String) : List String :=
  (splitCommaAux s.data []).map String.mk

/-- Line 175: keys built from the -k argument by splitting on commas,
stripping each token, and keeping only tokens that are non-empty after
stripping. -/
def parseKeys (k : String) : List String :=
  ((splitComma k).map pyStrip).filter (fun s => s != "")

/-- CPython dict assignment: replace the value at an existing key in place,
otherwise append the new key at the end, preserving insertion order. -/
def dictInsert (d : List (String × Json)) (k : String) (v : Json) : List (String × Json) :=
  match d with
  | [] => [(k, v)]
  | p :: rest => if p.1 = k then (k, v) :: rest else p :: dictInsert rest k v

/-- Lines 107-110 of extract_keys: the per-item presence loop over the
requested keys, failing at the first key absent from the item. -/
def checkKeys (keys : List String) (item : List (String × Json)) : Except Error Unit :=
  match keys with
  | [] => .ok ()
  | k :: rest =>
    if (List.lookup k item).isSome then checkKeys rest item
    else .error keyError

/-- Left-to-right sequence of dict assignments keyed by f. -/
def insertFold (f : String → Json) (acc : List (String × Json)) : List String → List (String × Json)
  | [] => acc
  | k :: rest => insertFold f (dictInsert acc k (f k)) rest

/-- Line 112: the dict comprehension building new_item, as the left-to-right
sequence of dict assignments key by key. Every key is present in the item on
the paths extract_keys takes, checkKeys having succeeded first, so the getD
default is never reached there. -/
def buildNewItem (keys : List String) (item : List (String × Json)) : List (String × Json) :=
  insertFold (fun k => (List.lookup k item).getD Json.null) [] keys

/-- Lines 101-114: extract_keys. Iterates the list in order; a non-dict
element is fatal with the file error, a missing requested key is fatal with
the key error; otherwise each element is projected to the requested keys and
appended. The first failing element aborts the whole run. -/
def extract_keys (data : List Json) (keys : List String) : Except Error (List Json) :=
  match data with
  | [] => .ok []
  | item :: rest =>
    match item with
    | .obj fields =>
      match checkKeys keys fields with
      | .error e => .error e
      | .ok _ =>
        match extract_keys rest keys with
        | .error e => .error e
        | .ok subset => .ok (.obj (buildNewItem keys fields) :: subset)
    | _ => .error fileError

/-- What the filesystem yields for the input file: missing at the resolved
path, present but json.load raises, or parsed to a value. The resolution of
the filename relative to the script directory is folded into this map. -/
inductive LoadResult where
  | missing : LoadResult
  | invalid : LoadResult
  | parsed (j : Json) : LoadResult

/-- File-system side effects of a run, in order, for the temporal claims. -/
inductive Event where
  | checkFileAt (path : String) : Event
  | readFileAt (path : String) : Event
  | writeFileAt (path : String) : Event
deriving DecidableEq

/-- Lines 49-81: load_json_file together with the file events it performs.
The isfile check comes first; the file is opened and read only when it
exists. Missing file and unparsable contents print the same message and
exit with code 1. -/
def load_json_file (fs : String → LoadResult) (filename : String) :
    Except Error Json × List Event :=
  match fs filename with
  | .missing => (.error fileError, [.checkFileAt filename])
  | .invalid => (.error fileError, [.checkFileAt filename, .readFileAt filename])
  | .parsed j => (.ok j, [.checkFileAt filename, .readFileAt filename])

/-- The content written to the fixed-name output file. -/
inductive FileContent where
  | jsonContent (value : Json) : FileContent
  | csvContent (header : List String) (rows : List (List Json)) : FileContent

/-- The file written by a successful run: its fixed name and its content. -/
structure RunOutput where
  filename : String
  content : FileContent

/-- One CSV row: csv.DictWriter fetches the value at each fieldname from the
row dict. The flat-text conversion of the fetched value is kept abstract;
the cell records the value itself. -/
def csvRow (keys : List String) : Json → List Json
  | .obj fields => keys.map (fun k => (List.lookup k fields).getD Json.null)
  | _ => []

/-- Lines 117-131: output_json writes the projected list, pretty-printed, to
json_output.json. -/
def output_json (data : List Json) : RunOutput × Event :=
  (⟨"json_output.json", .jsonContent (.arr data)⟩, .writeFileAt "json_output.json")

/-- Lines 134-154: output_csv writes a header row of the keys and one row
per projected object to json_output.csv. -/
def output_csv (data : List Json) (keys : List String) : RunOutput × Event :=
  (⟨"json_output.csv", .csvContent keys (data.map (csvRow keys))⟩,
    .writeFileAt "json_output.csv")

/-- The four command-line arguments after argparse. -/
structure Args where
  f : String
  n : Int
  k : String
  c : Bool

/-- Lines 157-197: main. Builds the key list from -k, validates its length
against -n before any file access, loads the file, requires a list, extracts
the keys from every element, then emits CSV or JSON as selected by -c. -/
def main (args : Args) (fs : String → LoadResult) :
    Except Error RunOutput × List Event :=
  let keys := parseKeys args.k
  if (keys.length : Int) ≠ args.n then
    (.error argError, [])
  else
    match load_json_file fs args.f with
    | (.error e, evs) => (.error e, evs)
    | (.ok data, evs) =>
      match data with
      | .arr items =>
        match extract_keys items keys with
        | .error e => (.error e, evs)
        | .ok subset =>
          if args.c then
            let (out, ev) := output_csv subset keys
            (.ok out, evs ++ [ev])
          else
            let (out, ev) := output_json subset
            (.ok out, evs ++ [ev])
      | _ => (.error fileError, evs)

/-- An element is a dict. -/
def Json.isObj : Json → Bool
  | .obj _ => true
  | _ => false

/-- An element is a dict containing every requested key. -/
def isObjWithKeys (keys : List String) : Json → Bool
  | .obj fields => keys.all (fun k => (List.lookup k fields).isSome)
  | _ => false

/-- An element is a dict whose key set coincides with the requested keys. -/
def sameKeySet (keys : List String) : Json → Bool
  | .obj fields =>
      keys.all (fun k => (List.lookup k fields).isSome) &&
      fields.all (fun p => decide (p.1 ∈ keys))
  | _ => false

/-- The projection of a single element, as extract_keys performs it on a
dict; non-dicts are returned unchanged (extract_keys never reaches that
case, having rejected them). -/
def projectJson (keys : List String) : Json → Json
  | .obj fields => .obj (buildNewItem keys fields)
  | j => j

/-- The requested keys in order of first occurrence, those already seen
dropped. firstOccurrences [] keys is the key order of a dict built by
assigning the keys left to right. -/
def firstOccurrences (seen : List String) : List String → List String
  | [] => []
  | k :: rest =>
    if k ∈ seen then firstOccurrences seen rest
    else k :: firstOccurrences (k :: seen) rest

/-- Looking a key up in a cons cell compares against the head key first. -/
lemma lookup_cons (x : String) (p : String × Json) (rest : List (String × Json)) :
    List.lookup x (p :: rest) = if x = p.1 then some p.2 else List.lookup x rest := by
  rcases p with ⟨a, b⟩
  by_cases h : x = a
  · simp [List.lookup, h]
  · have hb : (x == a) = false := beq_eq_false_iff_ne.mpr h
    simp [List.lookup, hb, h]

/-- A dict assignment changes exactly the lookup of the assigned key. -/
lemma lookup_dictInsert (d : List (String × Json)) (k x : String) (v : Json) :
    List.lookup x (dictInsert d k v) = if x = k then some v else List.lookup x d := by
  induction d with
  | nil => simp [dictInsert, lookup_cons]
  | cons p rest ih =>
    simp only [dictInsert]
    by_cases hpk : p.1 = k
    · rw [if_pos hpk, lookup_cons, lookup_cons]
      by_cases hxk : x = k
      · simp [hxk]
      · have hxp : ¬ x = p.1 := by rw [hpk]; exact hxk
        simp [hxk, hxp]
    · rw [if_neg hpk, lookup_cons, ih, lookup_cons]
      by_cases hxp : x = p.1
      · have hxk : ¬ x = k := by rw [hxp]; exact hpk
        simp [hxp, hxk, hpk]
      · simp [hxp]

/-- A dict assignment leaves the key order unchanged when the key is
present, and appends the key at the end otherwise. -/
lemma keysOf_dictInsert (d : List (String × Json)) (k : String) (v : Json) :
    (dictInsert d k v).map Prod.fst =
      if k ∈ d.map Prod.fst then d.map Prod.fst else d.map Prod.fst ++ [k] := by
  induction d with
  | nil => simp [dictInsert]
  | cons p rest ih =>
    simp only [dictInsert]
    by_cases hpk : p.1 = k
    · rw [if_pos hpk]
      simp [hpk]
    · rw [if_neg hpk, List.map_cons, List.map_cons, ih]
      have hkp : ¬ k = p.1 := fun h => hpk h.symm
      by_cases hk : k ∈ rest.map Prod.fst
      · simp [hk, hkp]
      · simp [hk, hkp]

/-- A lookup succeeds exactly on the keys of the dict. -/
lemma lookup_isSome_iff (k : String) (d : List (String × Json)) :
    (List.lookup k d).isSome = true ↔ k ∈ d.map Prod.fst := by
  induction d with
  | nil => simp [List.lookup]
  | cons p rest ih =>
    rw [lookup_cons]
    by_cases h : k = p.1 <;> simp [h, ih]

/-- Lookup after the left-to-right assignment sequence: keys in the sequence
map to their assigned value, the rest fall through to the accumulator. -/
lemma lookup_insertFold (f : String → Json) :
    ∀ (keys : List String) (acc : List (String × Json)) (x : String),
      List.lookup x (insertFold f acc keys) =
        if x ∈ keys then some (f x) else List.lookup x acc := by
  intro keys
  induction keys with
  | nil => intro acc x; simp [insertFold]
  | cons k rest ih =>
    intro acc x
    simp only [insertFold]
    rw [ih]
    by_cases hxr : x ∈ rest
    · simp [hxr]
    · by_cases hxk : x = k
      · simp [hxr, hxk, lookup_dictInsert]
      · simp [hxr, hxk, lookup_dictInsert]

/-- firstOccurrences only inspects membership in the seen set. -/
lemma firstOccurrences_congr :
    ∀ (l s₁ s₂ : List String), (∀ x, x ∈ s₁ ↔ x ∈ s₂) →
      firstOccurrences s₁ l = firstOccurrences s₂ l := by
  intro l
  induction l with
  | nil => intro s₁ s₂ _; rfl
  | cons k rest ih =>
    intro s₁ s₂ h
    simp only [firstOccurrences]
    by_cases hk : k ∈ s₁
    · rw [if_pos hk, if_pos ((h k).mp hk), ih s₁ s₂ h]
    · rw [if_neg hk, if_neg (fun hk₂ => hk ((h k).mpr hk₂))]
      rw [ih (k :: s₁) (k :: s₂) (by intro x; simp [List.mem_cons, h x])]

/-- Key order after the assignment sequence: the accumulator keys followed
by the new keys in order of first occurrence. -/
lemma keysOf_insertFold (f : String → Json) :
    ∀ (keys : List String) (acc : List (String × Json)),
      (insertFold f acc keys).map Prod.fst =
        acc.map Prod.fst ++ firstOccurrences (acc.map Prod.fst) keys := by
  intro keys
  induction keys with
  | nil => intro acc; simp [insertFold, firstOccurrences]
  | cons k rest ih =>
    intro acc
    simp only [insertFold, firstOccurrences]
    rw [ih, keysOf_dictInsert]
    by_cases hk : k ∈ acc.map Prod.fst
    · rw [if_pos hk, if_pos hk]
    · rw [if_neg hk, if_neg hk, List.append_assoc, List.singleton_append]
      congr 2
      exact firstOccurrences_congr rest _ _
        (by intro x; simp [List.mem_append, List.mem_cons, or_comm])

/-- The key order of a projected record is the requested keys, first
occurrences only. -/
lemma keysOf_buildNewItem (keys : List String) (item : List (String × Json)) :
    (buildNewItem keys item).map Prod.fst = firstOccurrences [] keys := by
  unfold buildNewItem
  rw [keysOf_insertFold]
  simp

/-- Lookup in a projected record: requested keys take the value in the item, all
other keys are absent. -/
lemma lookup_buildNewItem (keys : List String) (item : List (String × Json)) (x : String) :
    List.lookup x (buildNewItem keys item) =
      if x ∈ keys then some ((List.lookup x item).getD Json.null) else none := by
  unfold buildNewItem
  rw [lookup_insertFold]
  simp [List.lookup]

/-- Membership in firstOccurrences: in the list and not already seen. -/
lemma mem_firstOccurrences :
    ∀ (l seen : List String) (x : String),
      x ∈ firstOccurrences seen l ↔ x ∈ l ∧ x ∉ seen := by
  intro l
  induction l with
  | nil => intro seen x; simp [firstOccurrences]
  | cons k rest ih =>
    intro seen x
    simp only [firstOccurrences]
    by_cases hk : k ∈ seen
    · rw [if_pos hk, ih, List.mem_cons]
      constructor
      · rintro ⟨hr, hs⟩; exact ⟨Or.inr hr, hs⟩
      · rintro ⟨he | hr, hs⟩
        · exact absurd (he ▸ hk) hs
        · exact ⟨hr, hs⟩
    · rw [if_neg hk, List.mem_cons, List.mem_cons, ih]
      constructor
      · rintro (he | ⟨hr, hs⟩)
        · exact ⟨Or.inl he, he ▸ hk⟩
        · exact ⟨Or.inr hr, fun hxs => hs (List.mem_cons_of_mem k hxs)⟩
      · rintro ⟨he | hr, hs⟩
        · exact Or.inl he
        · by_cases hxk : x = k
          · exact Or.inl hxk
          · exact Or.inr ⟨hr, by simp [List.mem_cons, hxk, hs]⟩

/-- firstOccurrences never repeats a key. -/
lemma nodup_firstOccurrences : ∀ (l seen : List String), (firstOccurrences seen l).Nodup := by
  intro l
  induction l with
  | nil => intro seen; simp [firstOccurrences]
  | cons k rest ih =>
    intro seen
    simp only [firstOccurrences]
    by_cases hk : k ∈ seen
    · rw [if_pos hk]; exact ih seen
    · rw [if_neg hk]
      refine List.nodup_cons.mpr ⟨?_, ih (k :: seen)⟩
      intro hmem
      exact ((mem_firstOccurrences rest (k :: seen) k).mp hmem).2 (List.mem_cons_self k seen)

/-- firstOccurrences never lengthens the list. -/
lemma length_firstOccurrences_le :
    ∀ (l seen : List String), (firstOccurrences seen l).length ≤ l.length := by
  intro l
  induction l with
  | nil => intro seen; simp [firstOccurrences]
  | cons k rest ih =>
    intro seen
    simp only [firstOccurrences]
    by_cases hk : k ∈ seen
    · rw [if_pos hk]
      exact le_trans (ih seen) (Nat.le_succ _)
    · rw [if_neg hk]
      simpa using ih (k :: seen)

/-- An element already seen makes firstOccurrences strictly shorter. -/
lemma length_firstOccurrences_lt_of_seen :
    ∀ (l seen : List String), (∃ x ∈ l, x ∈ seen) →
      (firstOccurrences seen l).length < l.length := by
  intro l
  induction l with
  | nil =>
    rintro seen ⟨x, hx, _⟩
    exact absurd hx (List.not_mem_nil x)
  | cons k rest ih =>
    rintro seen ⟨x, hx, hxs⟩
    simp only [firstOccurrences]
    by_cases hk : k ∈ seen
    · rw [if_pos hk]
      exact Nat.lt_succ_of_le (length_firstOccurrences_le rest seen)
    · rw [if_neg hk]
      rcases List.mem_cons.mp hx with he | hr
      · exact absurd (he ▸ hxs) hk
      · simpa using ih (k :: seen) ⟨x, hr, List.mem_cons_of_mem k hxs⟩

/-- A duplicate in the list makes firstOccurrences strictly shorter. -/
lemma length_firstOccurrences_lt_of_not_nodup :
    ∀ (l seen : List String), ¬ l.Nodup →
      (firstOccurrences seen l).length < l.length := by
  intro l
  induction l with
  | nil => intro seen h; exact absurd List.nodup_nil h
  | cons k rest ih =>
    intro seen h
    simp only [firstOccurrences]
    by_cases hk : k ∈ seen
    · rw [if_pos hk]
      exact Nat.lt_succ_of_le (length_firstOccurrences_le rest seen)
    · rw [if_neg hk]
      rw [List.nodup_cons] at h
      push_neg at h
      by_cases hkr : k ∈ rest
      · simpa using
          length_firstOccurrences_lt_of_seen rest (k :: seen)
            ⟨k, hkr, List.mem_cons_self k seen⟩
      · simpa using ih (k :: seen) (h hkr)

/-- On a duplicate-free list disjoint from the seen set, firstOccurrences is
the identity. -/
lemma firstOccurrences_eq_self :
    ∀ (l seen : List String), l.Nodup → (∀ x ∈ l, x ∉ seen) →
      firstOccurrences seen l = l := by
  intro l
  induction l with
  | nil => intro seen _ _; rfl
  | cons k rest ih =>
    intro seen hnd hdisj
    simp only [firstOccurrences]
    rw [if_neg (hdisj k (List.mem_cons_self k rest))]
    congr 1
    refine ih (k :: seen) (List.nodup_cons.mp hnd).2 ?_
    intro x hx hxk
    rcases List.mem_cons.mp hxk with he | hs
    · exact (List.nodup_cons.mp hnd).1 (he ▸ hx)
    · exact hdisj x (List.mem_cons_of_mem k hx) hs

/-- The presence loop succeeds when every requested key is present. -/
lemma checkKeys_eq_ok :
    ∀ (keys : List String) (item : List (String × Json)),
      (∀ k ∈ keys, (List.lookup k item).isSome = true) →
      checkKeys keys item = .ok () := by
  intro keys
  induction keys with
  | nil => intro item _; rfl
  | cons k rest ih =>
    intro item h
    simp only [checkKeys]
    rw [if_pos (h k (List.mem_cons_self k rest))]
    exact ih item (fun x hx => h x (List.mem_cons_of_mem k hx))

/-- The presence loop fails with the key error when some requested key is
absent. -/
lemma checkKeys_eq_error :
    ∀ (keys : List String) (item : List (String × Json)) (k : String),
      k ∈ keys → List.lookup k item = none →
      checkKeys keys item = .error keyError := by
  intro keys
  induction keys with
  | nil =>
    intro item k hk _
    exact absurd hk (List.not_mem_nil k)
  | cons k₀ rest ih =>
    intro item k hk hnone
    simp only [checkKeys]
    by_cases h₀ : (List.lookup k₀ item).isSome = true
    · rw [if_pos h₀]
      rcases List.mem_cons.mp hk with he | hr
      · rw [he] at hnone
        rw [hnone] at h₀
        simp at h₀
      · exact ih item k hr hnone
    · rw [if_neg h₀]

/-- The presence loop either succeeds or reports the key error. -/
lemma checkKeys_cases :
    ∀ (keys : List String) (item : List (String × Json)),
      checkKeys keys item = .ok () ∨ checkKeys keys item = .error keyError := by
  intro keys
  induction keys with
  | nil => intro item; exact Or.inl rfl
  | cons k rest ih =>
    intro item
    simp only [checkKeys]
    by_cases h : (List.lookup k item).isSome = true
    · rw [if_pos h]; exact ih item
    · rw [if_neg h]; exact Or.inr rfl

/-- When every element is a dict containing every requested key, extraction
succeeds and is the element-wise projection. -/
lemma extract_keys_eq_ok :
    ∀ (data : List Json) (keys : List String),
      (∀ item ∈ data, isObjWithKeys keys item = true) →
      extract_keys data keys = .ok (data.map (projectJson keys)) := by
  intro data
  induction data with
  | nil => intro keys _; rfl
  | cons item rest ih =>
    intro keys h
    have hitem := h item (List.mem_cons_self item rest)
    cases item with
    | obj fields =>
      simp only [extract_keys]
      have hchk : checkKeys keys fields = .ok () := by
        apply checkKeys_eq_ok
        intro k hk
        simp only [isObjWithKeys, List.all_eq_true] at hitem
        exact hitem k hk
      rw [hchk, ih keys (fun x hx => h x (List.mem_cons_of_mem _ hx))]
      simp [projectJson]
    | null => simp [isObjWithKeys] at hitem
    | bool b => simp [isObjWithKeys] at hitem
    | num n => simp [isObjWithKeys] at hitem
    | str s => simp [isObjWithKeys] at hitem
    | arr l => simp [isObjWithKeys] at hitem

/-- Extraction yields a value, the file error, or the key error: never any
other diagnostic. -/
lemma extract_keys_cases :
    ∀ (data : List Json) (keys : List String),
      (∃ l, extract_keys data keys = .ok l) ∨
        extract_keys data keys = .error fileError ∨
        extract_keys data keys = .error keyError := by
  intro data
  induction data with
  | nil => intro keys; exact Or.inl ⟨[], rfl⟩
  | cons item rest ih =>
    intro keys
    cases item with
    | obj fields =>
      simp only [extract_keys]
      rcases checkKeys_cases keys fields with hok | herr
      · rw [hok]
        rcases ih keys with ⟨l, hl⟩ | herr₂ | herr₂
        · rw [hl]; exact Or.inl ⟨_, rfl⟩
        · rw [herr₂]; exact Or.inr (Or.inl rfl)
        · rw [herr₂]; exact Or.inr (Or.inr rfl)
      · rw [herr]; exact Or.inr (Or.inr rfl)
    | null => exact Or.inr (Or.inl rfl)
    | bool b => exact Or.inr (Or.inl rfl)
    | num n => exact Or.inr (Or.inl rfl)
    | str s => exact Or.inr (Or.inl rfl)
    | arr l => exact Or.inr (Or.inl rfl)

/-- When every element is a dict but some requested key is absent from some
element, extraction fails with the key error. -/
lemma extract_keys_eq_keyError :
    ∀ (data : List Json) (keys : List String),
      (∀ item ∈ data, Json.isObj item = true) →
      (∃ item ∈ data, ∃ fields, item = Json.obj fields ∧
        ∃ k ∈ keys, List.lookup k fields = none) →
      extract_keys data keys = .error keyError := by
  intro data
  induction data with
  | nil =>
    rintro keys _ ⟨item, hmem, _⟩
    exact absurd hmem (List.not_mem_nil item)
  | cons item rest ih =>
    rintro keys hobj ⟨bad, hbadmem, fields₀, hbadeq, k, hk, hnone⟩
    have hitem := hobj item (List.mem_cons_self item rest)
    cases item with
    | obj fields =>
      simp only [extract_keys]
      rcases List.mem_cons.mp hbadmem with he | hr
      · have hfe : fields₀ = fields := by
          rw [he] at hbadeq
          exact (Json.obj.injEq fields₀ fields).mp hbadeq.symm
        rw [checkKeys_eq_error keys fields k hk (hfe ▸ hnone)]
      · rcases checkKeys_cases keys fields with hok | herr
        · rw [hok]
          rw [ih keys (fun x hx => hobj x (List.mem_cons_of_mem _ hx))
            ⟨bad, hr, fields₀, hbadeq, k, hk, hnone⟩]
        · rw [herr]
    | null => simp [Json.isObj] at hitem
    | bool b => simp [Json.isObj] at hitem
    | num n => simp [Json.isObj] at hitem
    | str s => simp [Json.isObj] at hitem
    | arr l => simp [Json.isObj] at hitem

/-- C1 counterexample: the claim that every projected record has exactly
len(KeySpec) entries fails when KeySpec contains duplicate keys. With
KeySpec = ["a", "a"] and the input list [obj [a ↦ 1]], extraction succeeds
and the one projected record has 1 entry, not len(KeySpec) = 2: the dict
comprehension collapses the duplicate key. -/
theorem c1_entry_count_counterexample :
    extract_keys [Json.obj [("a", Json.num 1)]] ["a", "a"] =
        .ok [Json.obj [("a", Json.num 1)]] ∧
      ¬ ([("a", Json.num 1)] : List (String × Json)).length =
          (["a", "a"] : List String).length := by
  constructor
  · rfl
  · decide

/-- C1 (amended): for every successful run, every projected record produced
by extract_keys has exactly one entry per distinct KeySpec key, in order of
first occurrence in KeySpec; when KeySpec has no duplicate keys this is
exactly len(KeySpec) entries in KeySpec order. -/
theorem c1_entry_count (data : List Json) (keys : List String)
    (h : ∀ item ∈ data, isObjWithKeys keys item = true) :
    ∃ out, extract_keys data keys = .ok out ∧
      ∀ r ∈ out, ∃ pf, r = Json.obj pf ∧
        pf.map Prod.fst = firstOccurrences [] keys ∧
        pf.length = (firstOccurrences [] keys).length ∧
        (keys.Nodup → pf.map Prod.fst = keys) := by
  refine ⟨data.map (projectJson keys), extract_keys_eq_ok data keys h, ?_⟩
  intro r hr
  rcases List.mem_map.mp hr with ⟨item, hmem, heq⟩
  have hitem := h item hmem
  cases item with
  | obj fields =>
    refine ⟨buildNewItem keys fields, ?_, keysOf_buildNewItem keys fields, ?_, ?_⟩
    · rw [← heq]; rfl
    · rw [← keysOf_buildNewItem keys fields]
      exact (List.length_map _ _).symm
    · intro hnd
      rw [keysOf_buildNewItem]
      exact firstOccurrences_eq_self keys [] hnd (fun x _ => List.not_mem_nil x)
  | null => simp [isObjWithKeys] at hitem
  | bool b => simp [isObjWithKeys] at hitem
  | num n => simp [isObjWithKeys] at hitem
  | str s => simp [isObjWithKeys] at hitem
  | arr l => simp [isObjWithKeys] at hitem

/-- C1 witness: the amended statement at KeySpec = ["a", "a"] over the input
list [obj [a ↦ 1]]. -/
theorem c1_entry_count_witness :
    ∃ out, extract_keys [Json.obj [("a", Json.num 1)]] ["a", "a"] = .ok out ∧
      ∀ r ∈ out, ∃ pf, r = Json.obj pf ∧
        pf.map Prod.fst = firstOccurrences [] ["a", "a"] ∧
        pf.length = (firstOccurrences [] ["a", "a"]).length ∧
        ((["a", "a"] : List String).Nodup → pf.map Prod.fst = ["a", "a"]) :=
  c1_entry_count [Json.obj [("a", Json.num 1)]] ["a", "a"]
    (by intro item hm; rw [List.mem_singleton] at hm; subst hm; rfl)

/-- C4: when every element of the input list is a dict containing every
KeySpec key, extraction succeeds, the output list has the same length as the
input, and its i-th element is the projection of the i-th input element. -/
theorem c4_order_preserved (data : List Json) (keys : List String)
    (h : ∀ item ∈ data, isObjWithKeys keys item = true) :
    ∃ out, extract_keys data keys = .ok out ∧ out.length = data.length ∧
      ∀ (i : Nat) (hi : i < data.length) (ho : i < out.length),
        out.get ⟨i, ho⟩ = projectJson keys (data.get ⟨i, hi⟩) := by
  refine ⟨data.map (projectJson keys), extract_keys_eq_ok data keys h,
    List.length_map _ _, ?_⟩
  intro i hi ho
  rw [List.get_eq_getElem, List.get_eq_getElem]
  simp [List.getElem_map]

/-- C4 witness: extraction of key "a" from a two-element list of dicts. -/
theorem c4_order_preserved_witness :
    ∃ out,
      extract_keys [Json.obj [("a", Json.num 1), ("b", Json.num 2)],
          Json.obj [("a", Json.num 3)]] ["a"] = .ok out ∧
      out.length = ([Json.obj [("a", Json.num 1), ("b", Json.num 2)],
          Json.obj [("a", Json.num 3)]] : List Json).length ∧
      ∀ (i : Nat)
        (hi : i < ([Json.obj [("a", Json.num 1), ("b", Json.num 2)],
            Json.obj [("a", Json.num 3)]] : List Json).length)
        (ho : i < out.length),
        out.get ⟨i, ho⟩ = projectJson ["a"]
          (([Json.obj [("a", Json.num 1), ("b", Json.num 2)],
              Json.obj [("a", Json.num 3)]] : List Json).get ⟨i, hi⟩) :=
  c4_order_preserved _ ["a"] (by
    intro item hm
    rcases List.mem_cons.mp hm with he | hm₂
    · subst he; rfl
    · rw [List.mem_singleton] at hm₂; subst hm₂; rfl)

/-- C5: round-trip. When KeySpec has the same key set as every record of the
input list, extraction succeeds and every projected record is equal, as a
key-to-value mapping, to its source record. -/
theorem c5_round_trip (data : List Json) (keys : List String)
    (h : ∀ item ∈ data, sameKeySet keys item = true) :
    extract_keys data keys = .ok (data.map (projectJson keys)) ∧
      ∀ fields, Json.obj fields ∈ data →
        ∀ k, List.lookup k (buildNewItem keys fields) = List.lookup k fields := by
  have hok : ∀ item ∈ data, isObjWithKeys keys item = true := by
    intro item hm
    have hsk := h item hm
    cases item with
    | obj fields =>
      simp only [sameKeySet, Bool.and_eq_true] at hsk
      simp only [isObjWithKeys]
      exact hsk.1
    | null => simp [sameKeySet] at hsk
    | bool b => simp [sameKeySet] at hsk
    | num n => simp [sameKeySet] at hsk
    | str s => simp [sameKeySet] at hsk
    | arr l => simp [sameKeySet] at hsk
  refine ⟨extract_keys_eq_ok data keys hok, ?_⟩
  intro fields hmem k
  have hsk := h _ hmem
  simp only [sameKeySet, Bool.and_eq_true, List.all_eq_true, decide_eq_true_eq] at hsk
  obtain ⟨hall, hsub⟩ := hsk
  rw [lookup_buildNewItem]
  by_cases hk : k ∈ keys
  · rw [if_pos hk]
    obtain ⟨v, hv⟩ := Option.isSome_iff_exists.mp (hall k hk)
    rw [hv]
    rfl
  · rw [if_neg hk]
    cases hlk : List.lookup k fields with
    | none => rfl
    | some v =>
      exfalso
      have hkm : k ∈ fields.map Prod.fst :=
        (lookup_isSome_iff k fields).mp (by rw [hlk]; rfl)
      rcases List.mem_map.mp hkm with ⟨p, hp, hpk⟩
      exact hk (hpk ▸ hsub p hp)

/-- C5 witness: the round-trip at KeySpec = ["b", "a"] over one record whose
key set is also fiberwise the pair a, b. -/
theorem c5_round_trip_witness :
    extract_keys [Json.obj [("a", Json.num 1), ("b", Json.str "x")]] ["b", "a"] =
        .ok ([Json.obj [("a", Json.num 1), ("b", Json.str "x")]].map
          (projectJson ["b", "a"])) ∧
      ∀ fields, Json.obj fields ∈ [Json.obj [("a", Json.num 1), ("b", Json.str "x")]] →
        ∀ k, List.lookup k (buildNewItem ["b", "a"] fields) = List.lookup k fields :=
  c5_round_trip _ ["b", "a"]
    (by intro item hm; rw [List.mem_singleton] at hm; subst hm; rfl)

/-- C9: when KeySpec contains a key more than once and the input object
contains every KeySpec key, projection succeeds — duplicates are not an
error — and the projected record has exactly one entry per distinct KeySpec
key, hence strictly fewer entries than len(KeySpec). -/
theorem c9_duplicates_collapse (keys : List String) (fields : List (String × Json))
    (hdup : ¬ keys.Nodup)
    (hkeys : ∀ k ∈ keys, (List.lookup k fields).isSome = true) :
    extract_keys [Json.obj fields] keys = .ok [Json.obj (buildNewItem keys fields)] ∧
      ((buildNewItem keys fields).map Prod.fst).Nodup ∧
      (∀ k, k ∈ (buildNewItem keys fields).map Prod.fst ↔ k ∈ keys) ∧
      (buildNewItem keys fields).length < keys.length := by
  refine ⟨?_, ?_, ?_, ?_⟩
  · have hok := extract_keys_eq_ok [Json.obj fields] keys (by
      intro item hm
      rw [List.mem_singleton] at hm
      subst hm
      simp only [isObjWithKeys, List.all_eq_true]
      exact hkeys)
    simpa [projectJson] using hok
  · rw [keysOf_buildNewItem]
    exact nodup_firstOccurrences keys []
  · intro k
    rw [keysOf_buildNewItem, mem_firstOccurrences]
    simp
  · have hlen : (buildNewItem keys fields).length = (firstOccurrences [] keys).length := by
      rw [← keysOf_buildNewItem keys fields, List.length_map]
    rw [hlen]
    exact length_firstOccurrences_lt_of_not_nodup keys [] hdup

/-- C9 witness: KeySpec = ["a", "a"] over the object [a ↦ 7]. -/
theorem c9_duplicates_collapse_witness :
    extract_keys [Json.obj [("a", Json.num 7)]] ["a", "a"] =
        .ok [Json.obj (buildNewItem ["a", "a"] [("a", Json.num 7)])] ∧
      ((buildNewItem ["a", "a"] [("a", Json.num 7)]).map Prod.fst).Nodup ∧
      (∀ k, k ∈ (buildNewItem ["a", "a"] [("a", Json.num 7)]).map Prod.fst ↔
        k ∈ (["a", "a"] : List String)) ∧
      (buildNewItem ["a", "a"] [("a", Json.num 7)]).length <
        (["a", "a"] : List String).length :=
  c9_duplicates_collapse ["a", "a"] [("a", Json.num 7)] (by decide) (by decide)

/-- When the key count matches -n, the run never reports the argument
error: every later failure carries a different message. -/
lemma main_ne_argError (args : Args) (fs : String → LoadResult)
    (hn : ((parseKeys args.k).length : Int) = args.n) :
    (main args fs).1 ≠ .error argError := by
  have hferr : (fileError : Error) ≠ argError := by decide
  have hkerr : (keyError : Error) ≠ argError := by decide
  simp only [main]
  rw [if_neg (not_not_intro hn)]
  rcases hfs : fs args.f with _ | _ | j
  · simp [load_json_file, hfs, hferr]
  · simp [load_json_file, hfs, hferr]
  · simp only [load_json_file, hfs]
    cases j with
    | arr items =>
      simp only []
      rcases extract_keys_cases items (parseKeys args.k) with ⟨l, hl⟩ | herr | herr
      · rw [hl]
        by_cases hc : args.c = true
        · simp [hc, output_csv]
        · simp [hc, output_json]
      · rw [herr]; simp [hferr]
      · rw [herr]; simp [hkerr]
    | null => simp [hferr]
    | bool b => simp [hferr]
    | num n => simp [hferr]
    | str s => simp [hferr]
    | obj fields => simp [hferr]

/-- C2: the resolver builds KeySpec from the -k string by splitting on
commas, stripping each token, and dropping empty tokens (parseKeys), and
the run fails with the argument-error message and exit code 1 exactly when
the length of that sequence differs from -n. -/
theorem c2_key_count_check (args : Args) (fs : String → LoadResult) :
    (main args fs).1 = .error argError ↔
      ((parseKeys args.k).length : Int) ≠ args.n := by
  constructor
  · intro hres
    by_contra hn
    exact main_ne_argError args fs hn hres
  · intro hn
    simp only [main]
    rw [if_pos hn]

/-- C2 witness: the equivalence at -k "a,b" against -n 5 and -n 2. -/
theorem c2_key_count_check_witness :
    ((main ⟨"f.json", 5, "a,b", false⟩ (fun _ => LoadResult.missing)).1 =
        .error argError ↔ ((parseKeys "a,b").length : Int) ≠ 5) ∧
    ((main ⟨"f.json", 2, "a,b", false⟩ (fun _ => LoadResult.missing)).1 =
        .error argError ↔ ((parseKeys "a,b").length : Int) ≠ 2) :=
  ⟨c2_key_count_check ⟨"f.json", 5, "a,b", false⟩ (fun _ => LoadResult.missing),
   c2_key_count_check ⟨"f.json", 2, "a,b", false⟩ (fun _ => LoadResult.missing)⟩

/-- C3: when the parsed input is a list of dicts and some KeySpec key is
absent from some element, the run fails with the key-error message and exit
code 1, and no output file is written. -/
theorem c3_missing_key_aborts (args : Args) (fs : String → LoadResult)
    (items : List Json)
    (hn : ((parseKeys args.k).length : Int) = args.n)
    (hfs : fs args.f = .parsed (.arr items))
    (hobj : ∀ item ∈ items, Json.isObj item = true)
    (hbad : ∃ item ∈ items, ∃ fields, item = Json.obj fields ∧
      ∃ k ∈ parseKeys args.k, List.lookup k fields = none) :
    (main args fs).1 = .error keyError ∧
      ∀ p, Event.writeFileAt p ∉ (main args fs).2 := by
  have hext := extract_keys_eq_keyError items (parseKeys args.k) hobj hbad
  constructor
  · simp only [main]
    rw [if_neg (not_not_intro hn)]
    simp only [load_json_file, hfs]
    rw [hext]
  · intro p
    simp only [main]
    rw [if_neg (not_not_intro hn)]
    simp only [load_json_file, hfs]
    rw [hext]
    simp

/-- C3 witness: requesting "a" from the one-element list [obj []]. -/
theorem c3_missing_key_aborts_witness :
    (main ⟨"in.json", 1, "a", false⟩
        (fun _ => LoadResult.parsed (.arr [Json.obj []]))).1 = .error keyError ∧
      ∀ p, Event.writeFileAt p ∉
        (main ⟨"in.json", 1, "a", false⟩
          (fun _ => LoadResult.parsed (.arr [Json.obj []]))).2 :=
  c3_missing_key_aborts _ _ [Json.obj []] (by decide) rfl
    (by intro item hm; rw [List.mem_singleton] at hm; subst hm; rfl)
    ⟨Json.obj [], List.mem_singleton.mpr rfl, [], rfl, "a", by decide, rfl⟩

/-- C6: with the key count matching, each of the three loader-stage failure
causes — file missing at the resolved path, contents not valid JSON, parsed
top-level value not a list — yields the identical diagnostic, the message
JSON FILE NOT FOUND! with exit code 1. -/
theorem c6_loader_failure_modes (args : Args) (fs : String → LoadResult)
    (hn : ((parseKeys args.k).length : Int) = args.n) :
    (fs args.f = .missing → (main args fs).1 = .error fileError) ∧
    (fs args.f = .invalid → (main args fs).1 = .error fileError) ∧
    (∀ j, fs args.f = .parsed j → (∀ items, j ≠ .arr items) →
      (main args fs).1 = .error fileError) := by
  refine ⟨?_, ?_, ?_⟩
  · intro hfs
    simp only [main]
    rw [if_neg (not_not_intro hn)]
    simp [load_json_file, hfs]
  · intro hfs
    simp only [main]
    rw [if_neg (not_not_intro hn)]
    simp [load_json_file, hfs]
  · intro j hfs hna
    simp only [main]
    rw [if_neg (not_not_intro hn)]
    simp only [load_json_file, hfs]

/-- C6 witness: the three failure causes on concrete filesystems. -/
theorem c6_loader_failure_modes_witness :
    (main ⟨"data.json", 1, "a", false⟩ (fun _ => LoadResult.missing)).1 =
        .error fileError ∧
      (main ⟨"data.json", 1, "a", false⟩ (fun _ => LoadResult.invalid)).1 =
        .error fileError ∧
      (main ⟨"data.json", 1, "a", false⟩
          (fun _ => LoadResult.parsed (Json.num 3))).1 = .error fileError :=
  ⟨(c6_loader_failure_modes ⟨"data.json", 1, "a", false⟩
      (fun _ => LoadResult.missing) (by decide)).1 rfl,
   (c6_loader_failure_modes ⟨"data.json", 1, "a", false⟩
      (fun _ => LoadResult.invalid) (by decide)).2.1 rfl,
   (c6_loader_failure_modes ⟨"data.json", 1, "a", false⟩
      (fun _ => LoadResult.parsed (Json.num 3)) (by decide)).2.2
      (Json.num 3) rfl (fun _ h => Json.noConfusion h)⟩

/-- C7: when the comma-split, stripped, non-empty token count of -k differs
from -n, the run fails with the argument-error message and exit code 1 and
performs no file event at all: the input file is never touched and no
output file is written. -/
theorem c7_argument_check_first (args : Args) (fs : String → LoadResult)
    (hn : ((parseKeys args.k).length : Int) ≠ args.n) :
    main args fs = (.error argError, []) := by
  simp only [main]
  rw [if_pos hn]

/-- C7 witness: one key against -n 5 on a filesystem that would parse. -/
theorem c7_argument_check_first_witness :
    main ⟨"x.json", 5, "a", false⟩ (fun _ => LoadResult.parsed (.arr [])) =
      (.error argError, []) :=
  c7_argument_check_first _ _ (by decide)

/-- C8: the scenario run. On input file content [obj [a ↦ 1, b ↦ 2, c ↦ 3]]
with -n 2 -k "a,c" in JSON output mode, the run succeeds, checks and reads
the input, and writes the list [obj [a ↦ 1, c ↦ 3]] to json_output.json. -/
theorem c8_scenario :
    main ⟨"input.json", 2, "a,c", false⟩
        (fun _ => LoadResult.parsed
          (.arr [Json.obj [("a", Json.num 1), ("b", Json.num 2), ("c", Json.num 3)]])) =
      (.ok ⟨"json_output.json",
          .jsonContent (.arr [Json.obj [("a", Json.num 1), ("c", Json.num 3)]])⟩,
        [.checkFileAt "input.json", .readFileAt "input.json",
          .writeFileAt "json_output.json"]) := rfl

/-- C10: when -n is 0 and every comma token of -k strips to the empty
string, the resolver produces the empty KeySpec and the count check passes;
on any parsed input list of dicts the run then succeeds, the projection
maps every element to the empty object, and in JSON mode the written output
is the list of empty objects. -/
theorem c10_empty_keyspec (args : Args) (fs : String → LoadResult)
    (items : List Json)
    (hn : args.n = 0)
    (hk : ∀ t ∈ splitComma args.k, pyStrip t = "")
    (hfs : fs args.f = .parsed (.arr items))
    (hobj : ∀ item ∈ items, Json.isObj item = true) :
    parseKeys args.k = [] ∧
      extract_keys items [] = .ok (items.map (fun _ => Json.obj [])) ∧
      ∃ out evs, main args fs = (.ok out, evs) ∧
        (args.c = false →
          out = ⟨"json_output.json",
            .jsonContent (.arr (items.map (fun _ => Json.obj [])))⟩) := by
  have hpk : parseKeys args.k = [] := by
    unfold parseKeys
    rw [List.filter_eq_nil_iff]
    intro s hs
    rcases List.mem_map.mp hs with ⟨t, ht, rfl⟩
    rw [hk t ht]
    decide
  have hproj : ∀ item ∈ items, isObjWithKeys [] item = true := by
    intro item hm
    have hi := hobj item hm
    cases item with
    | obj fields => rfl
    | null => simp [Json.isObj] at hi
    | bool b => simp [Json.isObj] at hi
    | num n => simp [Json.isObj] at hi
    | str s => simp [Json.isObj] at hi
    | arr l => simp [Json.isObj] at hi
  have hext : extract_keys items [] = .ok (items.map (projectJson [])) :=
    extract_keys_eq_ok items [] hproj
  have hmap : items.map (projectJson []) = items.map (fun _ => Json.obj []) := by
    apply List.map_congr_left
    intro item hm
    have hi := hobj item hm
    cases item with
    | obj fields => rfl
    | null => simp [Json.isObj] at hi
    | bool b => simp [Json.isObj] at hi
    | num n => simp [Json.isObj] at hi
    | str s => simp [Json.isObj] at hi
    | arr l => simp [Json.isObj] at hi
  refine ⟨hpk, by rw [hext, hmap], ?_⟩
  simp only [main, hpk]
  have hcond : ¬ ((([] : List String).length : Int) ≠ args.n) := by
    rw [hn]; decide
  rw [if_neg hcond]
  simp only [load_json_file, hfs]
  rw [hext, hmap]
  by_cases hc : args.c = true
  · simp only [hc, if_true, output_csv]
    exact ⟨_, _, rfl, fun hfalse => Bool.noConfusion hfalse⟩
  · simp only [hc, if_false, output_json]
    exact ⟨_, _, rfl, fun _ => rfl⟩

/-- C10 witness: -n 0 with -k " ,, " over a two-element list of dicts. -/
theorem c10_empty_keyspec_witness :
    parseKeys " ,, " = [] ∧
      extract_keys [Json.obj [("x", Json.num 1)], Json.obj []] [] =
        .ok ([Json.obj [("x", Json.num 1)], Json.obj []].map (fun _ => Json.obj [])) ∧
      ∃ out evs,
        main ⟨"in.json", 0, " ,, ", false⟩
          (fun _ => LoadResult.parsed
            (.arr [Json.obj [("x", Json.num 1)], Json.obj []])) = (.ok out, evs) ∧
        ((⟨"in.json", 0, " ,, ", false⟩ : Args).c = false →
          out = ⟨"json_output.json",
            .jsonContent (.arr ([Json.obj [("x", Json.num 1)], Json.obj []].map
              (fun _ => Json.obj [])))⟩) :=
  c10_empty_keyspec ⟨"in.json", 0, " ,, ", false⟩
    (fun _ => LoadResult.parsed (.arr [Json.obj [("x", Json.num 1)], Json.obj []]))
    [Json.obj [("x", Json.num 1)], Json.obj []] rfl (by decide) rfl (by decide)

end KeyExtractor
